import Mathlib

/-!
Verification of the EasySearch extension core (`src/searchProvider.ts`,
`src/searchModal.ts`).

JavaScript strings are modelled as `List Char` (one element per UTF-16 code
unit; all inputs of interest are ASCII, where the two coincide).  The
single-document search loop of `SearchProvider.searchInSingleDocument`, the
request-superseding logic of `SearchModal.performSearch`, the history update
of `SearchModal.addToHistory`, and the settings mutators are embedded as
executable functions below.
-/

namespace EasySearch

/-- A JavaScript string, one element per code unit. -/
abbrev JSString := List Char

/-- The `String.prototype.toLowerCase` operation, per code unit (ASCII-faithful). -/
def jsToLower (s : JSString) : JSString := s.map Char.toLower

/-- Leading-whitespace removal (the front half of `String.prototype.trim`). -/
def trimLeft (s : JSString) : JSString := s.dropWhile Char.isWhitespace

/-- Trailing-whitespace removal (the back half of `String.prototype.trim`). -/
def trimRight (s : JSString) : JSString := (s.reverse.dropWhile Char.isWhitespace).reverse

/-- The `String.prototype.trim` operation: drop whitespace from both ends. -/
def jsTrim (s : JSString) : JSString := trimRight (trimLeft s)

/-- Whether `needle` occurs as a prefix of `hay` (code-unit equality). -/
def matchesAt : JSString → JSString → Bool
  | [], _ => true
  | _ :: _, [] => false
  | c :: ns, d :: hs => c == d && matchesAt ns hs

/-- Scan positions `i, i+1, …` (at most `fuel` of them) for the first
occurrence of `needle` in `hay`. -/
def indexOfFrom (hay needle : JSString) : Nat → Nat → Option Nat
  | _, 0 => none
  | i, fuel + 1 =>
    if matchesAt needle (hay.drop i) then some i
    else indexOfFrom hay needle (i + 1) fuel

/-- The call `hay.indexOf(needle, start)` for a nonempty `needle`: the least
position `p ≥ start` at which `needle` occurs, if any.  The fuel
`hay.length + 1 - start` covers every position `start … hay.length`;
a nonempty needle cannot occur beyond `hay.length`. -/
def jsIndexOf (hay needle : JSString) (start : Nat) : Option Nat :=
  indexOfFrom hay needle start (hay.length + 1 - start)

/-- One element of the result list built by `searchInSingleDocument`:
the 0-based line of the match, the start/end columns of its range, and
`detail`, the original line text used as the preview. -/
structure SearchResult where
  line : Nat
  startCol : Nat
  endCol : Nat
  detail : JSString
  deriving Repr, DecidableEq

/-- The inner `while (true)` loop of `searchInSingleDocument`: repeatedly
`indexOf` from the current scan position, record a result whose range spans
`qLen` columns, and advance by `max 1 qLen`.  The scan position strictly
increases each iteration and never exceeds `hay.length`, so
`hay.length + 1` fuel (as passed by `scanLine`) never runs out. -/
def scanLineAux (needle : JSString) (qLen lineIdx : Nat) (lineText hay : JSString) :
    Nat → Nat → List SearchResult
  | _, 0 => []
  | start, fuel + 1 =>
    match jsIndexOf hay needle start with
    | none => []
    | some pos =>
      ⟨lineIdx, pos, pos + qLen, lineText⟩ ::
        scanLineAux needle qLen lineIdx lineText hay (pos + max 1 qLen) fuel

/-- All matches of `needle` on one physical line, scanning from column 0. -/
def scanLine (needle : JSString) (qLen lineIdx : Nat) (lineText hay : JSString) :
    List SearchResult :=
  scanLineAux needle qLen lineIdx lineText hay 0 (hay.length + 1)

/-- Outcome of a search call: a result list, the thrown
`Error('Search cancelled')`, or a propagated failure (e.g. the document
could not be opened). -/
inductive SearchOutcome where
  | ok (results : List SearchResult)
  | cancelled
  | failure
  deriving Repr, DecidableEq

/-- A signal that is never aborted. -/
def noSignal : Nat → Bool := fun _ => false

/-- The `for (let line = 0; …)` loop of `searchInSingleDocument`:
`signal i` is the value of `signal.aborted` observed at the check performed
before scanning line `i`; an aborted check throws, discarding all results. -/
def searchLines (needle : JSString) (qLen : Nat) (caseSensitive : Bool)
    (signal : Nat → Bool) : Nat → List JSString → SearchOutcome
  | _, [] => .ok []
  | i, lineText :: rest =>
    if signal i then .cancelled
    else
      let hay := if caseSensitive then lineText else jsToLower lineText
      match searchLines needle qLen caseSensitive signal (i + 1) rest with
      | .ok rs => .ok (scanLine needle qLen i lineText hay ++ rs)
      | e => e

/-- The body of `searchInSingleDocument` after the query has been trimmed (the source
computes `const q = (query ?? '').trim()` first): blank queries return `[]`
before the document is opened; `doc? = none` models `openTextDocument`
throwing. -/
def searchTrimmed (doc? : Option (List JSString)) (q : JSString)
    (caseSensitive : Bool) (signal : Nat → Bool) : SearchOutcome :=
  if q = [] then .ok []
  else
    match doc? with
    | none => .failure
    | some lines =>
      let needle := if caseSensitive then q else jsToLower q
      searchLines needle q.length caseSensitive signal 0 lines

/-- The function `SearchProvider.searchInSingleDocument(uri, query, signal)`: trim the
query, early-return on blank, otherwise open the document and scan its
lines. -/
def searchInSingleDocument (doc? : Option (List JSString)) (query : JSString)
    (caseSensitive : Bool) (signal : Nat → Bool) : SearchOutcome :=
  searchTrimmed doc? (jsTrim query) caseSensitive signal

/-- The `catch` clause of `SearchProvider.search`: when the signal is
observed aborted at catch time, any thrown error is re-thrown as
`Error('Search cancelled')`; otherwise the original error propagates. -/
def providerSearch (doc? : Option (List JSString)) (query : JSString)
    (caseSensitive : Bool) (signal : Nat → Bool) (abortedAtCatch : Bool) :
    SearchOutcome :=
  match searchInSingleDocument doc? query caseSensitive signal with
  | .ok rs => .ok rs
  | .cancelled => .cancelled
  | .failure => if abortedAtCatch then .cancelled else .failure

/-- The result list of an outcome (`[]` when the search threw). -/
def outcomeResults : SearchOutcome → List SearchResult
  | .ok rs => rs
  | _ => []

/-- The results of an uncancelled single-document search on an openable
document. -/
def searchTrimmedOk (lines : List JSString) (q : JSString) (caseSensitive : Bool) :
    List SearchResult :=
  outcomeResults (searchTrimmed (some lines) q caseSensitive noSignal)

/-- The results of `searchInSingleDocument` with no cancellation. -/
def searchInSingleDocumentOk (lines : List JSString) (query : JSString)
    (caseSensitive : Bool) : List SearchResult :=
  outcomeResults (searchInSingleDocument (some lines) query caseSensitive noSignal)

/-- Split a document's content into its physical lines, as the editor's
`lineCount`/`lineAt` view does (an empty content has one empty line). -/
def splitLines : JSString → List JSString
  | [] => [[]]
  | c :: rest =>
    if c = '\n' then [] :: splitLines rest
    else
      match splitLines rest with
      | l :: ls => (c :: l) :: ls
      | [] => [[c]]

/-- The early-exit guard of `SearchModal.performSearch`: a query of raw
length `< 2` yields an empty result set without invoking the provider;
otherwise the single-document search runs. -/
def performSearchResults (lines : List JSString) (query : JSString)
    (caseSensitive : Bool) : List SearchResult :=
  if query.length < 2 then []
  else searchInSingleDocumentOk lines query caseSensitive

/-- The request-coordination state of a `SearchModal` instance:
`currentSearchId` is the last minted request id (`0` before any search),
`hasController` records whether an `abortController` is installed, and
`abortedIds` collects the request ids whose controllers have been
aborted. -/
structure CoordinatorState where
  currentSearchId : Nat
  hasController : Bool
  abortedIds : List Nat
  deriving Repr, DecidableEq

/-- The state of a freshly constructed modal. -/
def initialCoordinator : CoordinatorState := ⟨0, false, []⟩

/-- The synchronous head of `SearchModal.performSearch`: abort the previous
request's controller (if any), mint `searchId = ++currentSearchId`, and
install a fresh controller.  Returns the new state and the minted id. -/
def performSearchIssue (s : CoordinatorState) : CoordinatorState × Nat :=
  let aborted := if s.hasController then s.currentSearchId :: s.abortedIds else s.abortedIds
  (⟨s.currentSearchId + 1, true, aborted⟩, s.currentSearchId + 1)

/-- The guard on the success path of `performSearch`: a completed search
posts its results only when `searchId === this.currentSearchId`
(`if (searchId !== this.currentSearchId) return;`). -/
def deliverResult (s : CoordinatorState) (searchId : Nat) : Bool :=
  searchId == s.currentSearchId

/-- The guard on the error path of `performSearch`: an error is posted only
when `searchId === this.currentSearchId`. -/
def deliverError (s : CoordinatorState) (searchId : Nat) : Bool :=
  searchId == s.currentSearchId

/-- The constant `SearchModal.MAX_HISTORY`. -/
def MAX_HISTORY : Nat := 20

/-- The method `SearchModal.addToHistory`: trim the query, ignore blanks, prepend the
query to the stored history with its previous occurrence filtered out, and
persist only the first `MAX_HISTORY` entries (`history.slice(0, 20)`). -/
def addToHistory (stored : List JSString) (query : JSString) : List JSString :=
  let q := jsTrim query
  if q = [] then stored
  else (q :: stored.filter (fun x => x ≠ q)).take MAX_HISTORY

/-- The engine's settings (`TextSearcher`'s case flag and exclude
patterns). -/
structure SearchState where
  caseSensitive : Bool
  excludePatterns : List JSString
  excludeEnabled : Bool
  deriving Repr, DecidableEq

/-- The observable state a `SearchModal`/`SearchProvider` pair exposes:
its settings, the currently displayed result set, and how many search
operations have been invoked so far. -/
structure ModalMachine where
  state : SearchState
  currentResults : List SearchResult
  searchInvocations : Nat
  deriving Repr, DecidableEq

/-- Modelled from the spec: `TextSearcher.setCaseSensitive` (textSearcher.ts
is not among the sources; spec §4.5 says the mutator is a pass-through write
of `SearchState.caseSensitive` that does not itself trigger a re-search).
`SearchProvider.setCaseSensitive` forwards to it unchanged. -/
def setCaseSensitive (m : ModalMachine) (b : Bool) : ModalMachine :=
  { m with state := { m.state with caseSensitive := b } }

/-- Modelled from the spec: `TextSearcher.setExcludePatterns` (textSearcher.ts
is not among the sources; spec §4.5/§6 says the mutator writes
`SearchState.excludePatterns`/`excludeEnabled` and does not itself trigger a
re-search).  `SearchProvider.setExcludePatterns` forwards to it unchanged. -/
def setExcludePatterns (m : ModalMachine) (patterns : List JSString)
    (enabled : Bool) : ModalMachine :=
  { m with state := { m.state with excludePatterns := patterns, excludeEnabled := enabled } }

/-- The method `SearchModal.toggleCaseSensitive`: read the current flag and set its
negation; no search is performed and `currentResults` is untouched. -/
def toggleCaseSensitive (m : ModalMachine) : ModalMachine :=
  setCaseSensitive m (!m.state.caseSensitive)

/-- A search operation: the only transition that updates `currentResults`,
counted by `searchInvocations`. -/
def performSearchOp (m : ModalMachine) (results : List SearchResult) : ModalMachine :=
  { m with currentResults := results, searchInvocations := m.searchInvocations + 1 }

/-- The position triple of a result (everything except the preview text). -/
def posOf (r : SearchResult) : Nat × Nat × Nat := (r.line, r.startCol, r.endCol)

theorem indexOfFrom_some (hay needle : JSString) :
    ∀ (fuel i p : Nat), indexOfFrom hay needle i fuel = some p →
      i ≤ p ∧ p < i + fuel ∧ matchesAt needle (hay.drop p) = true ∧
        ∀ r, i ≤ r → r < p → matchesAt needle (hay.drop r) = false := by
  intro fuel
  induction fuel with
  | zero => intro i p h; simp [indexOfFrom] at h
  | succ fuel ih =>
    intro i p h
    by_cases hm : matchesAt needle (hay.drop i)
    · simp [indexOfFrom, hm] at h
      subst h
      exact ⟨Nat.le_refl _, by omega, hm, fun r hr hrp => by omega⟩
    · simp [indexOfFrom, hm] at h
      obtain ⟨h1, h2, h3, h4⟩ := ih (i + 1) p h
      refine ⟨by omega, by omega, h3, fun r hr hrp => ?_⟩
      by_cases hri : r = i
      · subst hri; simpa using hm
      · exact h4 r (by omega) hrp

theorem indexOfFrom_none (hay needle : JSString) :
    ∀ (fuel i : Nat), indexOfFrom hay needle i fuel = none →
      ∀ p, i ≤ p → p < i + fuel → matchesAt needle (hay.drop p) = false := by
  intro fuel
  induction fuel with
  | zero => intro i _ p hp1 hp2; omega
  | succ fuel ih =>
    intro i h p hp1 hp2
    by_cases hm : matchesAt needle (hay.drop i)
    · simp [indexOfFrom, hm] at h
    · simp [indexOfFrom, hm] at h
      by_cases hpi : p = i
      · subst hpi; simpa using hm
      · exact ih (i + 1) h p (by omega) (by omega)

theorem matchesAt_of_nonempty_nil {needle : JSString} (hne : needle ≠ []) :
    matchesAt needle [] = false := by
  cases needle with
  | nil => exact absurd rfl hne
  | cons c ns => rfl

theorem jsIndexOf_some (hay needle : JSString) (start p : Nat)
    (h : jsIndexOf hay needle start = some p) :
    start ≤ p ∧ p ≤ hay.length ∧ matchesAt needle (hay.drop p) = true ∧
      ∀ r, start ≤ r → r < p → matchesAt needle (hay.drop r) = false := by
  obtain ⟨h1, h2, h3, h4⟩ := indexOfFrom_some hay needle _ start p h
  exact ⟨h1, by omega, h3, h4⟩

theorem jsIndexOf_none (hay needle : JSString) (start : Nat) (hne : needle ≠ [])
    (h : jsIndexOf hay needle start = none) :
    ∀ p, start ≤ p → matchesAt needle (hay.drop p) = false := by
  intro p hp
  by_cases hbig : hay.length < p
  · rw [List.drop_eq_nil_of_le (by omega)]
    exact matchesAt_of_nonempty_nil hne
  · exact indexOfFrom_none hay needle _ start h p hp (by omega)

theorem scanLineAux_shape (needle : JSString) (qLen lineIdx : Nat) (lineText hay : JSString) :
    ∀ (fuel start : Nat) (r : SearchResult),
      r ∈ scanLineAux needle qLen lineIdx lineText hay start fuel →
      r.line = lineIdx ∧ r.detail = lineText ∧ start ≤ r.startCol ∧
        r.endCol = r.startCol + qLen ∧ matchesAt needle (hay.drop r.startCol) = true := by
  intro fuel
  induction fuel with
  | zero => intro start r h; simp [scanLineAux] at h
  | succ fuel ih =>
    intro start r h
    rw [scanLineAux] at h
    cases hidx : jsIndexOf hay needle start with
    | none => rw [hidx] at h; simp at h
    | some pos =>
      rw [hidx] at h
      obtain ⟨hp1, hp2, hp3, hp4⟩ := jsIndexOf_some hay needle start pos hidx
      rcases List.mem_cons.mp h with hr | hr
      · subst hr; exact ⟨rfl, rfl, hp1, rfl, hp3⟩
      · obtain ⟨h1, h2, h3, h4, h5⟩ := ih (pos + max 1 qLen) r hr
        exact ⟨h1, h2, by omega, h4, h5⟩

theorem scanLineAux_gap (needle : JSString) (qLen lineIdx : Nat) (lineText hay : JSString) :
    ∀ (fuel start : Nat),
      List.Pairwise (fun a b => a.startCol + max 1 qLen ≤ b.startCol)
        (scanLineAux needle qLen lineIdx lineText hay start fuel) := by
  intro fuel
  induction fuel with
  | zero => intro start; simp [scanLineAux]
  | succ fuel ih =>
    intro start
    rw [scanLineAux]
    cases hidx : jsIndexOf hay needle start with
    | none => simp
    | some pos =>
      refine List.Pairwise.cons (fun b hb => ?_) (ih (pos + max 1 qLen))
      obtain ⟨-, -, h3, -, -⟩ :=
        scanLineAux_shape needle qLen lineIdx lineText hay fuel (pos + max 1 qLen) b hb
      exact h3

/-- The ordering of the result list: ascending line, then ascending column. -/
def resOrder (a b : SearchResult) : Prop :=
  a.line < b.line ∨ (a.line = b.line ∧ a.startCol < b.startCol)

theorem scanLineAux_pairwise (needle : JSString) (qLen lineIdx : Nat) (lineText hay : JSString) :
    ∀ (fuel start : Nat),
      List.Pairwise resOrder (scanLineAux needle qLen lineIdx lineText hay start fuel) := by
  intro fuel
  induction fuel with
  | zero => intro start; simp [scanLineAux]
  | succ fuel ih =>
    intro start
    rw [scanLineAux]
    cases hidx : jsIndexOf hay needle start with
    | none => simp
    | some pos =>
      refine List.Pairwise.cons (fun b hb => ?_) (ih (pos + max 1 qLen))
      obtain ⟨h1, -, h3, -, -⟩ :=
        scanLineAux_shape needle qLen lineIdx lineText hay fuel (pos + max 1 qLen) b hb
      right
      refine ⟨h1.symm, ?_⟩
      have : 1 ≤ max 1 qLen := Nat.le_max_left 1 qLen
      show pos < b.startCol
      omega

theorem scanLineAux_covers (needle : JSString) (qLen lineIdx : Nat) (lineText hay : JSString)
    (hne : needle ≠ []) :
    ∀ (fuel start : Nat), hay.length + 1 ≤ fuel + start →
      ∀ p, start ≤ p → matchesAt needle (hay.drop p) = true →
        ∃ r ∈ scanLineAux needle qLen lineIdx lineText hay start fuel,
          r.startCol ≤ p ∧ p < r.startCol + max 1 qLen := by
  intro fuel
  induction fuel with
  | zero =>
    intro start hfuel p hp hm
    rw [List.drop_eq_nil_of_le (by omega)] at hm
    rw [matchesAt_of_nonempty_nil hne] at hm
    exact absurd hm (by simp)
  | succ fuel ih =>
    intro start hfuel p hp hm
    rw [scanLineAux]
    cases hidx : jsIndexOf hay needle start with
    | none =>
      rw [jsIndexOf_none hay needle start hne hidx p hp] at hm
      exact absurd hm (by simp)
    | some pos =>
      obtain ⟨hp1, hp2, hp3, hp4⟩ := jsIndexOf_some hay needle start pos hidx
      have hpos_le : pos ≤ p := by
        by_contra hlt
        rw [hp4 p hp (by omega)] at hm
        exact absurd hm (by simp)
      by_cases hnear : p < pos + max 1 qLen
      · exact ⟨⟨lineIdx, pos, pos + qLen, lineText⟩, List.mem_cons_self _ _, hpos_le, hnear⟩
      · have hmax : 1 ≤ max 1 qLen := Nat.le_max_left 1 qLen
        obtain ⟨r, hrmem, hr1, hr2⟩ :=
          ih (pos + max 1 qLen) (by omega) p (by omega) hm
        exact ⟨r, List.mem_cons_of_mem _ hrmem, hr1, hr2⟩

theorem searchLines_ne_failure (needle : JSString) (qLen : Nat) (cs : Bool)
    (signal : Nat → Bool) :
    ∀ (ls : List JSString) (i : Nat), searchLines needle qLen cs signal i ls ≠ .failure := by
  intro ls
  induction ls with
  | nil => intro i h; simp [searchLines] at h
  | cons l rest ih =>
    intro i h
    rw [searchLines] at h
    by_cases hs : signal i
    · simp [hs] at h
    · simp only [hs, if_false, Bool.false_eq_true] at h
      cases hrec : searchLines needle qLen cs signal (i + 1) rest with
      | ok rs => rw [hrec] at h; simp at h
      | cancelled => rw [hrec] at h; simp at h
      | failure => exact ih (i + 1) hrec

theorem searchLines_cancelled_iff (needle : JSString) (qLen : Nat) (cs : Bool)
    (signal : Nat → Bool) :
    ∀ (ls : List JSString) (i : Nat),
      searchLines needle qLen cs signal i ls = .cancelled ↔
        ∃ j, j < ls.length ∧ signal (i + j) = true := by
  intro ls
  induction ls with
  | nil => intro i; simp [searchLines]
  | cons l rest ih =>
    intro i
    rw [searchLines]
    by_cases hs : signal i
    · rw [if_pos hs]
      exact iff_of_true rfl ⟨0, by simp, by simpa using hs⟩
    · simp only [hs, if_false, Bool.false_eq_true]
      constructor
      · intro h
        cases hrec : searchLines needle qLen cs signal (i + 1) rest with
        | ok rs => rw [hrec] at h; simp at h
        | failure => exact absurd hrec (searchLines_ne_failure needle qLen cs signal rest (i + 1))
        | cancelled =>
          obtain ⟨j, hj1, hj2⟩ := (ih (i + 1)).mp hrec
          exact ⟨j + 1, by simpa using hj1, by simpa [Nat.add_assoc, Nat.add_comm 1 j] using hj2⟩
      · rintro ⟨j, hj1, hj2⟩
        have hj : j ≠ 0 := by
          intro h0; subst h0; simp at hj2; exact hs hj2
        have : searchLines needle qLen cs signal (i + 1) rest = .cancelled := by
          refine (ih (i + 1)).mpr ⟨j - 1, by simp at hj1; omega, ?_⟩
          have : i + 1 + (j - 1) = i + j := by omega
          rw [this]; exact hj2
        rw [this]

theorem searchLines_noSignal_ok (needle : JSString) (qLen : Nat) (cs : Bool) :
    ∀ (ls : List JSString) (i : Nat),
      ∃ rs, searchLines needle qLen cs noSignal i ls = .ok rs := by
  intro ls
  induction ls with
  | nil => intro i; exact ⟨[], rfl⟩
  | cons l rest ih =>
    intro i
    obtain ⟨rs, hrs⟩ := ih (i + 1)
    refine ⟨scanLine needle qLen i l (if cs then l else jsToLower l) ++ rs, ?_⟩
    rw [searchLines]
    simp only [noSignal, Bool.false_eq_true, if_false]
    rw [hrs]

theorem searchLines_ok_shape (needle : JSString) (qLen : Nat) (cs : Bool)
    (signal : Nat → Bool) :
    ∀ (ls : List JSString) (i : Nat) (rs : List SearchResult),
      searchLines needle qLen cs signal i ls = .ok rs →
      ∀ r ∈ rs, i ≤ r.line ∧ r.line < i + ls.length ∧
        r.detail = ls.getD (r.line - i) [] ∧ r.endCol = r.startCol + qLen := by
  intro ls
  induction ls with
  | nil =>
    intro i rs h r hr
    rw [searchLines] at h
    cases h; simp at hr
  | cons l rest ih =>
    intro i rs h r hr
    rw [searchLines] at h
    by_cases hs : signal i
    · simp [hs] at h
    · simp only [hs, if_false, Bool.false_eq_true] at h
      cases hrec : searchLines needle qLen cs signal (i + 1) rest with
      | cancelled => rw [hrec] at h; simp at h
      | failure => exact absurd hrec (searchLines_ne_failure needle qLen cs signal rest (i + 1))
      | ok rs₂ =>
        rw [hrec] at h
        cases h
        rcases List.mem_append.mp hr with hmem | hmem
        · obtain ⟨h1, h2, -, h4, -⟩ := scanLineAux_shape needle qLen i l _ _ 0 r hmem
          subst h1
          exact ⟨Nat.le_refl _, by simp, by simpa using h2, h4⟩
        · obtain ⟨h1, h2, h3, h4⟩ := ih (i + 1) rs₂ hrec r hmem
          refine ⟨by omega, by simp; omega, ?_, h4⟩
          have : r.line - i = (r.line - (i + 1)) + 1 := by omega
          rw [this, List.getD_cons_succ]
          exact h3

theorem searchLines_ok_pairwise (needle : JSString) (qLen : Nat) (cs : Bool)
    (signal : Nat → Bool) :
    ∀ (ls : List JSString) (i : Nat) (rs : List SearchResult),
      searchLines needle qLen cs signal i ls = .ok rs → List.Pairwise resOrder rs := by
  intro ls
  induction ls with
  | nil => intro i rs h; rw [searchLines] at h; cases h; simp
  | cons l rest ih =>
    intro i rs h
    rw [searchLines] at h
    by_cases hs : signal i
    · simp [hs] at h
    · simp only [hs, if_false, Bool.false_eq_true] at h
      cases hrec : searchLines needle qLen cs signal (i + 1) rest with
      | cancelled => rw [hrec] at h; simp at h
      | failure => exact absurd hrec (searchLines_ne_failure needle qLen cs signal rest (i + 1))
      | ok rs₂ =>
        rw [hrec] at h
        cases h
        rw [List.pairwise_append]
        refine ⟨scanLineAux_pairwise needle qLen i l _ _ 0, ih (i + 1) rs₂ hrec, ?_⟩
        intro a ha b hb
        obtain ⟨ha1, -, -, -, -⟩ := scanLineAux_shape needle qLen i l _ _ 0 a ha
        obtain ⟨hb1, -, -, -⟩ := searchLines_ok_shape needle qLen cs signal rest (i + 1) rs₂ hrec b hb
        left; omega

theorem scanLineAux_posOf (needle : JSString) (qLen lineIdx : Nat) (t u hay : JSString) :
    ∀ (fuel start : Nat),
      (scanLineAux needle qLen lineIdx t hay start fuel).map posOf =
        (scanLineAux needle qLen lineIdx u hay start fuel).map posOf := by
  intro fuel
  induction fuel with
  | zero => intro start; simp [scanLineAux]
  | succ fuel ih =>
    intro start
    rw [scanLineAux, scanLineAux]
    cases hidx : jsIndexOf hay needle start with
    | none => simp
    | some pos => simpa [posOf] using ih (pos + max 1 qLen)

theorem scanLine_posOf (needle : JSString) (qLen lineIdx : Nat) (t u hay : JSString) :
    (scanLine needle qLen lineIdx t hay).map posOf =
      (scanLine needle qLen lineIdx u hay).map posOf :=
  scanLineAux_posOf needle qLen lineIdx t u hay (hay.length + 1) 0

theorem dropWhile_ws_append (wl s : JSString) (h : ∀ c ∈ wl, c.isWhitespace) :
    (wl ++ s).dropWhile Char.isWhitespace = s.dropWhile Char.isWhitespace := by
  induction wl with
  | nil => rfl
  | cons c wl ih =>
    rw [List.cons_append, List.dropWhile_cons]
    simp only [h c (List.mem_cons_self c wl), if_true]
    exact ih (fun d hd => h d (List.mem_cons_of_mem c hd))

theorem trimLeft_ws_append (wl s : JSString) (h : ∀ c ∈ wl, c.isWhitespace) :
    trimLeft (wl ++ s) = trimLeft s :=
  dropWhile_ws_append wl s h

theorem trimLeft_append_of_ne (q r : JSString) (h : trimLeft q ≠ []) :
    trimLeft (q ++ r) = trimLeft q ++ r := by
  induction q with
  | nil => exact absurd rfl h
  | cons c q ih =>
    by_cases hc : c.isWhitespace
    · rw [List.cons_append]
      unfold trimLeft at *
      rw [List.dropWhile_cons, List.dropWhile_cons] at *
      simp only [hc, if_true] at *
      exact ih h
    · unfold trimLeft
      rw [List.cons_append, List.dropWhile_cons, List.dropWhile_cons]
      simp [hc]

theorem trimLeft_eq_nil_iff (q : JSString) : trimLeft q = [] ↔ ∀ c ∈ q, c.isWhitespace := by
  unfold trimLeft
  induction q with
  | nil => simp
  | cons c q ih =>
    rw [List.dropWhile_cons]
    by_cases hc : c.isWhitespace
    · simp [hc, ih]
    · simp [hc]

theorem trimRight_append_ws (s wr : JSString) (h : ∀ c ∈ wr, c.isWhitespace) :
    trimRight (s ++ wr) = trimRight s := by
  unfold trimRight
  rw [List.reverse_append, dropWhile_ws_append wr.reverse s.reverse
    (fun c hc => h c (List.mem_reverse.mp hc))]

theorem jsTrim_pad (wl q wr : JSString) (hwl : ∀ c ∈ wl, c.isWhitespace)
    (hwr : ∀ c ∈ wr, c.isWhitespace) :
    jsTrim (wl ++ q ++ wr) = jsTrim q := by
  unfold jsTrim
  rw [List.append_assoc, trimLeft_ws_append wl (q ++ wr) hwl]
  by_cases hq : trimLeft q = []
  · have hqws : ∀ c ∈ q, c.isWhitespace := (trimLeft_eq_nil_iff q).mp hq
    have : trimLeft (q ++ wr) = [] := by
      refine (trimLeft_eq_nil_iff _).mpr (fun c hc => ?_)
      rcases List.mem_append.mp hc with hc | hc
      · exact hqws c hc
      · exact hwr c hc
    rw [this, hq]
  · rw [trimLeft_append_of_ne q wr hq, trimRight_append_ws _ wr hwr]

theorem jsToLower_length (s : JSString) : (jsToLower s).length = s.length :=
  List.length_map s Char.toLower

theorem jsToLower_nil_iff (s : JSString) : jsToLower s = [] ↔ s = [] := by
  simp [jsToLower]

theorem searchLines_lower (needle : JSString) (qLen : Nat) :
    ∀ (ls : List JSString) (i : Nat),
      (outcomeResults (searchLines needle qLen false noSignal i ls)).map posOf =
        (outcomeResults (searchLines needle qLen true noSignal i (ls.map jsToLower))).map posOf := by
  intro ls
  induction ls with
  | nil => intro i; rfl
  | cons l rest ih =>
    intro i
    obtain ⟨rs₁, h1⟩ := searchLines_noSignal_ok needle qLen false rest (i + 1)
    obtain ⟨rs₂, h2⟩ := searchLines_noSignal_ok needle qLen true (rest.map jsToLower) (i + 1)
    have hih := ih (i + 1)
    rw [h1, h2] at hih
    rw [List.map_cons, searchLines, searchLines, h1, h2]
    simp only [noSignal, Bool.false_eq_true, if_false, if_true, outcomeResults,
      List.map_append]
    simp only [outcomeResults] at hih
    rw [scanLine_posOf needle qLen i l (jsToLower l) (jsToLower l)]
    rw [hih]

/-- C1: issuing a second search from the same modal aborts the first
request's controller and mints a strictly larger request id, and a
completion (result or error) is delivered only when its request id is still
the current one — a stale completion is discarded silently, neither
delivered nor reported as an error. -/
theorem c1_request_superseding :
    (∀ s : CoordinatorState,
      (performSearchIssue s).2 < (performSearchIssue (performSearchIssue s).1).2 ∧
      (performSearchIssue s).2 ∈ (performSearchIssue (performSearchIssue s).1).1.abortedIds ∧
      deliverResult (performSearchIssue (performSearchIssue s).1).1 (performSearchIssue s).2
          = false ∧
      deliverError (performSearchIssue (performSearchIssue s).1).1 (performSearchIssue s).2
          = false ∧
      deliverResult (performSearchIssue (performSearchIssue s).1).1
          (performSearchIssue (performSearchIssue s).1).2 = true) ∧
    ∀ (s : CoordinatorState) (searchId : Nat), searchId ≠ s.currentSearchId →
      deliverResult s searchId = false ∧ deliverError s searchId = false := by
  constructor
  · intro s
    refine ⟨by simp [performSearchIssue], ?_, ?_, ?_, ?_⟩
    · simp [performSearchIssue]
    · simp [performSearchIssue, deliverResult]
    · simp [performSearchIssue, deliverError]
    · simp [performSearchIssue, deliverResult]
  · intro s searchId h
    constructor
    · simpa [deliverResult] using h
    · simpa [deliverError] using h

/-- C1 witness: a completion with id 3 while the current id is 5 is
discarded on both the result and the error path. -/
theorem c1_request_superseding_witness :
    deliverResult ⟨5, true, [4]⟩ 3 = false ∧ deliverError ⟨5, true, [4]⟩ 3 = false :=
  c1_request_superseding.2 ⟨5, true, [4]⟩ 3 (by decide)

/-- C2 counterexample: the query `" a "` has trimmed length 1 (< 2), yet
`performSearch` does not reject it (its raw length is 3): the single-document
search runs, reads the document `"ab"`, and returns one match, so the result
is not the empty sequence the claim requires. -/
theorem c2_short_query_counterexample :
    (jsTrim " a ".data).length < 2 ∧
      performSearchResults ["ab".data] " a ".data false = [⟨0, 0, 1, "ab".data⟩] ∧
      performSearchResults ["ab".data] " a ".data false ≠ [] := by
  refine ⟨by decide, by decide, by decide⟩

/-- C2 amended: the `performSearch` early exit fires on raw query length
`< 2` (covering `""`, `" "` and `"a"`), returning an empty, non-error result
independent of the document; separately, a query that trims to blank
returns `.ok []` from the single-document search before the document is
opened.  A query of raw length ≥ 2 whose trimmed length is 1 (such as
`" a "`) is not rejected: it is searched as its trimmed text. -/
theorem c2_amended_short_query :
    ∀ (lines linesB : List JSString) (query : JSString) (cs csB : Bool)
      (doc? : Option (List JSString)) (signal : Nat → Bool),
      (query.length < 2 → performSearchResults lines query cs = []) ∧
      (query.length < 2 →
        performSearchResults lines query cs = performSearchResults linesB query csB) ∧
      (jsTrim query = [] → searchInSingleDocument doc? query cs signal = .ok []) := by
  intro lines linesB query cs csB doc? signal
  refine ⟨fun h => ?_, fun h => ?_, fun h => ?_⟩
  · simp [performSearchResults, h]
  · simp [performSearchResults, h]
  · simp [searchInSingleDocument, searchTrimmed, h]

/-- C2 amended witness: `"a"` is rejected by the raw-length guard, and a
blank query returns `.ok []` even when the document cannot be opened. -/
theorem c2_amended_short_query_witness :
    performSearchResults ["ab".data] "a".data false = [] ∧
      searchInSingleDocument none " ".data false noSignal = .ok [] :=
  ⟨(c2_amended_short_query ["ab".data] [] "a".data false false none noSignal).1 (by decide),
   (c2_amended_short_query [] [] " ".data false false none noSignal).2.2 (by decide)⟩

/-- C3: evaluating the code at the claimed input: the document `"foo\nbar"`
(two physical lines) searched for the query `"foo\nbar"` yields zero
matches, not the one match at line 1 the claim states — the loop scans each
physical line separately (the full text fetched by `doc.getText()` is never
used), so a query containing a line separator can never match. -/
theorem c3_multiline_query_eval :
    splitLines "foo\nbar".data = ["foo".data, "bar".data] ∧
      searchInSingleDocumentOk (splitLines "foo\nbar".data) "foo\nbar".data false = [] ∧
      searchInSingleDocumentOk (splitLines "foo\nbar".data) "foo\nbar".data true = [] := by
  refine ⟨by decide, by decide, by decide⟩

theorem searchTrimmed_some_ne (lines : List JSString) (q : JSString) (cs : Bool)
    (signal : Nat → Bool) (hq : q ≠ []) :
    searchTrimmed (some lines) q cs signal =
      searchLines (if cs then q else jsToLower q) q.length cs signal 0 lines := by
  unfold searchTrimmed
  rw [if_neg hq]

/-- C4: with `caseSensitive = false` both the (trimmed) query and each line
are lower-cased before the substring comparison — the match positions of a
case-insensitive search coincide with those of a case-sensitive search over
the lower-cased query and document; the returned `detail` is always the
original line with its casing preserved; and the `"Hello"`/`"hello"`
examples behave as claimed. -/
theorem c4_case_normalization :
    (∀ (lines : List JSString) (q : JSString),
      (searchTrimmedOk lines q false).map posOf =
        (searchTrimmedOk (lines.map jsToLower) (jsToLower q) true).map posOf) ∧
    (∀ (lines : List JSString) (query : JSString) (cs : Bool),
      ∀ r ∈ searchInSingleDocumentOk lines query cs, r.detail = lines.getD r.line []) ∧
    searchInSingleDocumentOk ["Hello".data] "hello".data false = [⟨0, 0, 5, "Hello".data⟩] ∧
    searchInSingleDocumentOk ["Hello".data] "hello".data true = [] ∧
    searchInSingleDocumentOk ["Hello".data] "Hello".data true = [⟨0, 0, 5, "Hello".data⟩] := by
  refine ⟨?_, ?_, by decide, by decide, by decide⟩
  · intro lines q
    by_cases hq : q = []
    · subst hq; rfl
    · have hq2 : jsToLower q ≠ [] := fun h => hq ((jsToLower_nil_iff q).mp h)
      unfold searchTrimmedOk
      rw [searchTrimmed_some_ne lines q false noSignal hq,
        searchTrimmed_some_ne (lines.map jsToLower) (jsToLower q) true noSignal hq2]
      simp only [Bool.false_eq_true, if_false, if_true, jsToLower_length]
      exact searchLines_lower (jsToLower q) q.length lines 0
  · intro lines query cs r hr
    unfold searchInSingleDocumentOk searchInSingleDocument at hr
    by_cases hq : jsTrim query = []
    · rw [searchTrimmed, if_pos hq] at hr; simp [outcomeResults] at hr
    · rw [searchTrimmed_some_ne lines (jsTrim query) cs noSignal hq] at hr
      obtain ⟨rs, hrs⟩ :=
        searchLines_noSignal_ok (if cs then jsTrim query else jsToLower (jsTrim query))
          (jsTrim query).length cs lines 0
      rw [hrs] at hr
      simp only [outcomeResults] at hr
      obtain ⟨-, -, h3, -⟩ := searchLines_ok_shape _ _ cs noSignal lines 0 rs hrs r hr
      simpa using h3

/-- C4 witness: the single match for `"hello"` (case-insensitive) in the
document `["Hello"]` carries the original line `"Hello"` as its detail. -/
theorem c4_case_normalization_witness :
    (⟨0, 0, 5, "Hello".data⟩ : SearchResult) ∈
        searchInSingleDocumentOk ["Hello".data] "hello".data false ∧
      (⟨0, 0, 5, "Hello".data⟩ : SearchResult).detail = ["Hello".data].getD 0 [] :=
  ⟨by decide,
   c4_case_normalization.2.1 ["Hello".data] "hello".data false ⟨0, 0, 5, "Hello".data⟩
     (by decide)⟩

/-- C5: on one physical line every reported column is a genuine occurrence
of the needle, consecutive reported columns are at least `max 1 qLen` apart
(the scan advances past each match by at least one character), every
occurrence is covered by some reported match's advance window (so all
non-overlapping occurrences are reported), and the line `"ababab"` with
query `"ab"` yields exactly the 3 matches at columns 0, 2 and 4. -/
theorem c5_all_occurrences :
    (∀ (needle : JSString) (qLen lineIdx : Nat) (lineText hay : JSString), needle ≠ [] →
      (∀ r ∈ scanLine needle qLen lineIdx lineText hay,
        matchesAt needle (hay.drop r.startCol) = true) ∧
      List.Pairwise (fun a b => a.startCol + max 1 qLen ≤ b.startCol)
        (scanLine needle qLen lineIdx lineText hay) ∧
      (∀ p, matchesAt needle (hay.drop p) = true →
        ∃ r ∈ scanLine needle qLen lineIdx lineText hay,
          r.startCol ≤ p ∧ p < r.startCol + max 1 qLen)) ∧
    searchInSingleDocumentOk ["ababab".data] "ab".data true =
      [⟨0, 0, 2, "ababab".data⟩, ⟨0, 2, 4, "ababab".data⟩, ⟨0, 4, 6, "ababab".data⟩] := by
  refine ⟨?_, by decide⟩
  intro needle qLen lineIdx lineText hay hne
  refine ⟨fun r hr => ?_, scanLineAux_gap needle qLen lineIdx lineText hay _ 0, fun p hp => ?_⟩
  · exact (scanLineAux_shape needle qLen lineIdx lineText hay _ 0 r hr).2.2.2.2
  · exact scanLineAux_covers needle qLen lineIdx lineText hay hne (hay.length + 1) 0
      (by omega) p (Nat.zero_le p) hp

/-- C5 witness: the occurrence of `"ab"` at position 3 of `"ababab"` — an
overlapping one — is covered by a reported match's advance window. -/
theorem c5_all_occurrences_witness :
    ∃ r ∈ scanLine "ab".data 2 0 "ababab".data "ababab".data,
      r.startCol ≤ 2 ∧ 2 < r.startCol + max 1 2 :=
  (c5_all_occurrences.1 "ab".data 2 0 "ababab".data "ababab".data (by decide)).2.2 2
    (by decide)

/-- C6: in single-document mode the cancellation signal is checked once per
physical line — the search is cancelled exactly when some check before a
line of the document observes the signal set (so a set signal yields the
distinct Cancelled outcome, never a normal result and never a failure);
a document-open error instead yields the Failure outcome, and the two
outcomes are distinct from each other and from any normal result. -/
theorem c6_cancellation :
    ∀ (lines : List JSString) (query : JSString) (cs : Bool) (signal : Nat → Bool)
      (ab : Bool),
      (searchInSingleDocument (some lines) query cs signal = .cancelled ↔
        (jsTrim query ≠ [] ∧ ∃ i, i < lines.length ∧ signal i = true)) ∧
      (jsTrim query ≠ [] → searchInSingleDocument none query cs signal = .failure) ∧
      (jsTrim query ≠ [] → providerSearch none query cs signal false = .failure) ∧
      (searchInSingleDocument (some lines) query cs signal = .cancelled →
        providerSearch (some lines) query cs signal ab = .cancelled) ∧
      SearchOutcome.cancelled ≠ SearchOutcome.failure ∧
      (∀ rs, SearchOutcome.cancelled ≠ SearchOutcome.ok rs) := by
  intro lines query cs signal ab
  have hopenfail : jsTrim query ≠ [] →
      searchInSingleDocument none query cs signal = .failure := by
    intro hq
    unfold searchInSingleDocument searchTrimmed
    rw [if_neg hq]
  refine ⟨?_, hopenfail, ?_, ?_, fun h => SearchOutcome.noConfusion h,
    fun rs h => SearchOutcome.noConfusion h⟩
  · by_cases hq : jsTrim query = []
    · unfold searchInSingleDocument searchTrimmed
      rw [if_pos hq]
      exact iff_of_false (fun h => SearchOutcome.noConfusion h) (fun h => h.1 hq)
    · rw [searchInSingleDocument, searchTrimmed_some_ne lines (jsTrim query) cs signal hq]
      rw [searchLines_cancelled_iff _ _ cs signal lines 0]
      simp [hq]
  · intro hq
    unfold providerSearch
    rw [hopenfail hq]
    rfl
  · intro h
    unfold providerSearch
    rw [h]

/-- C6 witness: with the signal set before line 0 the search on `["ab"]`
is cancelled, while a document-open error without cancellation fails. -/
theorem c6_cancellation_witness :
    searchInSingleDocument (some ["ab".data]) "ab".data false (fun _ => true) = .cancelled ∧
      searchInSingleDocument none "ab".data false noSignal = .failure :=
  ⟨(c6_cancellation ["ab".data] "ab".data false (fun _ => true) false).1.mpr
      ⟨by decide, 0, by decide, rfl⟩,
   (c6_cancellation [] "ab".data false noSignal false).2.1 (by decide)⟩

/-- C7: committing a (non-blank) query stores a history list of at most 20
entries, headed by the newly committed (trimmed) query, containing that
query exactly once (a duplicate is moved, not duplicated), preserving the
relative order of the surviving previous entries, and keeping the list
duplicate-free. -/
theorem c7_history_bound :
    ∀ (stored : List JSString) (query : JSString), jsTrim query ≠ [] →
      (addToHistory stored query).length ≤ MAX_HISTORY ∧
      (addToHistory stored query).head? = some (jsTrim query) ∧
      (addToHistory stored query).count (jsTrim query) = 1 ∧
      (addToHistory stored query).Sublist (jsTrim query :: stored) ∧
      (stored.Nodup → (addToHistory stored query).Nodup) := by
  intro stored query hq
  have hunfold : addToHistory stored query =
      (jsTrim query :: stored.filter (fun x => x ≠ jsTrim query)).take MAX_HISTORY := by
    unfold addToHistory
    rw [if_neg hq]
  have hnotmem : ∀ t : List JSString,
      t.Sublist (stored.filter (fun x => x ≠ jsTrim query)) → jsTrim query ∉ t := by
    intro t ht hmem
    have := List.mem_filter.mp (ht.subset hmem)
    simp at this
  rw [hunfold]
  have htake19 : (jsTrim query :: stored.filter (fun x => x ≠ jsTrim query)).take MAX_HISTORY
      = jsTrim query :: (stored.filter (fun x => x ≠ jsTrim query)).take 19 := rfl
  refine ⟨?_, ?_, ?_, ?_, ?_⟩
  · rw [List.length_take]
    exact Nat.min_le_left _ _
  · rw [htake19]
    rfl
  · rw [htake19, List.count_cons_self]
    have hzero : List.count (jsTrim query)
        (List.take 19 (stored.filter (fun x => x ≠ jsTrim query))) = 0 :=
      List.count_eq_zero.mpr (hnotmem _ (List.take_sublist _ _))
    omega
  · exact (List.take_sublist _ _).trans
      ((List.filter_sublist stored).cons₂ (jsTrim query))
  · intro hnd
    rw [htake19]
    refine List.Nodup.cons (hnotmem _ (List.take_sublist _ _)) ?_
    exact (List.take_sublist _ _).nodup (hnd.filter _)

/-- C7 witness: committing `" cd "` over the stored history `["ab", "cd"]`
moves `"cd"` to the head without duplicating it, and the result is
duplicate-free. -/
theorem c7_history_bound_witness :
    (addToHistory ["ab".data, "cd".data] " cd ".data).head? = some ("cd".data) ∧
      (addToHistory ["ab".data, "cd".data] " cd ".data).count ("cd".data) = 1 ∧
      (addToHistory ["ab".data, "cd".data] " cd ".data).Nodup := by
  have h := c7_history_bound ["ab".data, "cd".data] " cd ".data (by decide)
  have e : jsTrim (" cd ".data) = "cd".data := by decide
  rw [e] at h
  exact ⟨h.2.1, h.2.2.1, h.2.2.2.2 (by decide)⟩

/-- C8: the result sequence of a single-document search is ordered — the
line numbers are ascending, and within one line the start columns are
strictly ascending; no reordering or ranking is applied. -/
theorem c8_result_ordering :
    ∀ (lines : List JSString) (query : JSString) (cs : Bool),
      List.Pairwise resOrder (searchInSingleDocumentOk lines query cs) := by
  intro lines query cs
  unfold searchInSingleDocumentOk searchInSingleDocument
  by_cases hq : jsTrim query = []
  · rw [searchTrimmed, if_pos hq]
    simp [outcomeResults]
  · rw [searchTrimmed_some_ne lines (jsTrim query) cs noSignal hq]
    obtain ⟨rs, hrs⟩ :=
      searchLines_noSignal_ok (if cs then jsTrim query else jsToLower (jsTrim query))
        (jsTrim query).length cs lines 0
    rw [hrs]
    simp only [outcomeResults]
    exact searchLines_ok_pairwise _ _ cs noSignal lines 0 rs hrs

/-- C9: the settings mutators write only their own `SearchState` fields and
invoke no search — the displayed result set, the search-invocation count,
and the other settings fields are unchanged. -/
theorem c9_settings_frame :
    ∀ (m : ModalMachine) (b : Bool) (patterns : List JSString) (enabled : Bool),
      (setCaseSensitive m b).currentResults = m.currentResults ∧
      (setCaseSensitive m b).searchInvocations = m.searchInvocations ∧
      (setCaseSensitive m b).state.excludePatterns = m.state.excludePatterns ∧
      (setCaseSensitive m b).state.excludeEnabled = m.state.excludeEnabled ∧
      (setCaseSensitive m b).state.caseSensitive = b ∧
      (setExcludePatterns m patterns enabled).currentResults = m.currentResults ∧
      (setExcludePatterns m patterns enabled).searchInvocations = m.searchInvocations ∧
      (setExcludePatterns m patterns enabled).state.caseSensitive = m.state.caseSensitive ∧
      (setExcludePatterns m patterns enabled).state.excludePatterns = patterns ∧
      (setExcludePatterns m patterns enabled).state.excludeEnabled = enabled ∧
      (toggleCaseSensitive m).currentResults = m.currentResults ∧
      (toggleCaseSensitive m).searchInvocations = m.searchInvocations :=
  fun _ _ _ _ => ⟨rfl, rfl, rfl, rfl, rfl, rfl, rfl, rfl, rfl, rfl, rfl, rfl⟩

/-- C10: the query is trimmed before matching — a query that trims to blank
returns the empty (non-error) result without the document ever being
needed, surrounding a query with whitespace does not change the search
outcome, and every reported match range spans exactly `trim(q).length`
columns from its start column. -/
theorem c10_query_trimming :
    ∀ (doc? : Option (List JSString)) (query wl wr q : JSString) (cs : Bool)
      (signal : Nat → Bool) (lines : List JSString),
      (jsTrim query = [] → searchInSingleDocument doc? query cs signal = .ok []) ∧
      ((∀ c ∈ wl, c.isWhitespace) → (∀ c ∈ wr, c.isWhitespace) →
        searchInSingleDocument doc? (wl ++ q ++ wr) cs signal =
          searchInSingleDocument doc? q cs signal) ∧
      (∀ r ∈ searchInSingleDocumentOk lines query cs,
        r.endCol = r.startCol + (jsTrim query).length) := by
  intro doc? query wl wr q cs signal lines
  refine ⟨fun hq => ?_, fun hwl hwr => ?_, fun r hr => ?_⟩
  · unfold searchInSingleDocument searchTrimmed
    rw [if_pos hq]
  · unfold searchInSingleDocument
    rw [jsTrim_pad wl q wr hwl hwr]
  · unfold searchInSingleDocumentOk searchInSingleDocument at hr
    by_cases hq : jsTrim query = []
    · rw [searchTrimmed, if_pos hq] at hr
      simp [outcomeResults] at hr
    · rw [searchTrimmed_some_ne lines (jsTrim query) cs noSignal hq] at hr
      obtain ⟨rs, hrs⟩ :=
        searchLines_noSignal_ok (if cs then jsTrim query else jsToLower (jsTrim query))
          (jsTrim query).length cs lines 0
      rw [hrs] at hr
      simp only [outcomeResults] at hr
      exact (searchLines_ok_shape _ _ cs noSignal lines 0 rs hrs r hr).2.2.2

/-- C10 witness: a blank query returns `.ok []` even without a document,
padding `"ab"` with spaces does not change the outcome, and the single
match of `"ab"` spans 2 columns. -/
theorem c10_query_trimming_witness :
    searchInSingleDocument (some ["ab".data]) "  ".data false noSignal = .ok [] ∧
      searchInSingleDocument (some ["ab".data]) " ab ".data false noSignal =
        searchInSingleDocument (some ["ab".data]) "ab".data false noSignal ∧
      (⟨0, 0, 2, "ab".data⟩ : SearchResult).endCol =
        (⟨0, 0, 2, "ab".data⟩ : SearchResult).startCol + (jsTrim "ab".data).length := by
  refine ⟨(c10_query_trimming (some ["ab".data]) "  ".data [] [] [] false noSignal []).1
      (by decide), ?_, ?_⟩
  · have h := (c10_query_trimming (some ["ab".data]) [] " ".data " ".data "ab".data false
      noSignal []).2.1 (by decide) (by decide)
    have e : (" ab ".data : JSString) = " ".data ++ "ab".data ++ " ".data := by decide
    rw [e]
    exact h
  · exact (c10_query_trimming (some ["ab".data]) "ab".data [] [] [] false noSignal
      ["ab".data]).2.2 ⟨0, 0, 2, "ab".data⟩ (by decide)

end EasySearch
